import Mathlib

/-
Verification development for the gofrac fractal-iteration core (frac.go).

Modelling conventions:
- complex128 values are modelled as pairs of exact rationals (structure Cq).
  The claims under study are about control flow and exact algebraic
  identities, not about rounding of IEEE doubles, so exact rational
  arithmetic stands in for float64 arithmetic.  Where a claim is
  specifically about IEEE special values (the rational Julia variant),
  a dedicated carrier FF / FC with plus/minus infinity and NaN is used.
- Go loops are modelled as structurally recursive functions with an
  explicit fuel argument; `none` means the loop would still be running
  after `fuel` loop entries.  Each embedded entry point supplies fuel
  MaxIterations.toNat, and lemmas show this fuel is never exhausted when
  MaxIterations >= 1, which is exactly the termination bound of the code.
- Go `int` is modelled as ℤ, float64 comparisons on exact values as ℚ
  comparisons.
- The loops additionally thread a ghost counter `steps` counting how many
  times the recurrence (z = z*z + c, and its analogues) has been applied.
  It changes no control flow and is erased from the returned Result.
-/

/-- Model of Go complex128: a pair of (exact) rational components. -/
structure Cq where
  re : ℚ
  im : ℚ
deriving DecidableEq

instance : Zero Cq := ⟨⟨0, 0⟩⟩

instance : Add Cq := ⟨fun x y => ⟨x.re + y.re, x.im + y.im⟩⟩

instance : Sub Cq := ⟨fun x y => ⟨x.re - y.re, x.im - y.im⟩⟩

/-- Complex multiplication, as performed on Go complex128 values. -/
instance : Mul Cq := ⟨fun x y => ⟨x.re * y.re - x.im * y.im, x.re * y.im + x.im * y.re⟩⟩

theorem Cq.zero_def : (0 : Cq) = ⟨0, 0⟩ := rfl

theorem Cq.add_def (x y : Cq) : x + y = ⟨x.re + y.re, x.im + y.im⟩ := rfl

theorem Cq.sub_def (x y : Cq) : x - y = ⟨x.re - y.re, x.im - y.im⟩ := rfl

theorem Cq.mul_def (x y : Cq) :
    x * y = ⟨x.re * y.re - x.im * y.im, x.re * y.im + x.im * y.re⟩ := rfl

/-- Embedding of getMod2 (frac.go:119-122).  The source computes
`a, b := real(z), imag(z); return a*a + b+b`, i.e. a*a + b + b,
which is re(z)^2 + 2*im(z), not the squared modulus re(z)^2 + im(z)^2. -/
def getMod2 (z : Cq) : ℚ :=
  z.re * z.re + z.im + z.im

/-- Embedding of the FracData configuration struct (frac.go:78-91).
The fields degree and logDegreeInv (set through SetDegree via math.Log)
are never read by any code under study and are omitted; Radius and
MaxIterations are the fields the iteration variants read. -/
structure FracData where
  Radius : ℚ
  MaxIterations : ℤ
deriving DecidableEq

/-- Embedding of FracData.SetMaxIterations (frac.go:101-107).  The Go
method mutates the receiver and returns an error; the model returns
either the error message or the updated configuration. -/
def FracData.SetMaxIterations (f : FracData) (n : ℤ) : Except String FracData :=
  if n < 1 then Except.error "gofrac: the maximum iteration count must be greater than zero"
  else Except.ok ⟨f.Radius, n⟩

/-- Modelled from the spec: the Result record produced for every sample
point is declared outside frac.go; per spec section 3 it carries the final
iterate z, the parameter c actually used, the iteration count, and a
reserved smooth-coloring field that defaults to 0.  Field names follow
their uses in frac.go (r.Z, r.C, r.Iterations, NFactor). -/
structure Result (α : Type) where
  Z : α
  C : α
  Iterations : ℤ
  NFactor : ℚ
deriving DecidableEq

/-- State reached by an escape-time loop: current iterate, the Go-visible
iteration counter, and the ghost count of recurrence applications. -/
structure EscState (α : Type) where
  z : α
  count : ℤ
  steps : ℕ
deriving DecidableEq

/-- Common shape of the two escape-time loops in frac.go
(Quadratic.q, frac.go:124-141, and JuliaR.Frac, frac.go:232-246):

  count := 0
  loop: if not (guard z) then exit with (z, count)
        z := step z
        if count == maxIt then exit with (z, count)
        count := count + 1

`fuel` bounds the number of loop entries; `none` models the loop still
running after `fuel` entries. -/
def escLoop {α : Type} (guard : α → Bool) (step : α → α) (maxIt : ℤ) :
    ℕ → α → ℤ → ℕ → Option (EscState α)
  | 0, _, _, _ => none
  | fuel + 1, z, count, steps =>
    if guard z then
      if count = maxIt then some ⟨step z, count, steps + 1⟩
      else escLoop guard step maxIt fuel (step z) (count + 1) (steps + 1)
    else some ⟨z, count, steps⟩

/-- Embedding of the loop of Quadratic.q (frac.go:124-141): the guard is
mod2 <= r2 computed by getMod2, the step is z = z*z + c, and the counter
break compares against maxIt = MaxIterations-1. -/
def quadLoop (r2 : ℚ) (c : Cq) (maxIt : ℤ) (fuel : ℕ) (z : Cq) (count : ℤ) (steps : ℕ) :
    Option (EscState Cq) :=
  escLoop (fun w => decide (getMod2 w ≤ r2)) (fun w => w * w + c) maxIt fuel z count steps

/-- Quadratic.q (frac.go:124-141) up to the ghost steps counter: runs the
loop from count = 0 with fuel MaxIterations.toNat (the loop is entered at
most MaxIterations times when MaxIterations >= 1). -/
def quadQFull (fd : FracData) (z c : Cq) : Option (EscState Cq) :=
  quadLoop (fd.Radius * fd.Radius) c (fd.MaxIterations - 1) fd.MaxIterations.toNat z 0 0

/-- Embedding of Quadratic.q (frac.go:124-141), the shared quadratic core:
returns the Result record built from the final loop state. -/
def quadQ (fd : FracData) (z c : Cq) : Option (Result Cq) :=
  (quadQFull fd z c).map fun w => ⟨w.z, c, w.count, 0⟩

/-- Embedding of isCardioidOrP2Bulb (frac.go:168-190).  Its maxIt
parameter is unused by the source body and is kept for fidelity. -/
def isCardioidOrP2Bulb (z : Cq) (maxIt : ℤ) : Bool :=
  let reZ := z.re
  let imZ := z.im
  let rzp := reZ - 0.25
  let imz2 := imZ * imZ
  let q := rzp * rzp + imz2
  let isCardiod := decide (q * (q + rzp) ≤ 0.25 * imz2)
  if isCardiod then true
  else decide ((reZ + 1) * (reZ + 1) + imZ * imZ ≤ 0.0625)

/-- Embedding of Mandelbrot.Frac (frac.go:192-201). -/
def MandelbrotFrac (fd : FracData) (loc : Cq) : Option (Result Cq) :=
  if isCardioidOrP2Bulb loc fd.MaxIterations then
    some ⟨loc, 0, fd.MaxIterations - 1, 0⟩
  else quadQ fd 0 loc

/-- Embedding of JuliaQ.Frac (frac.go:219-221): the sample point is the
starting value, the stored C is the parameter. -/
def JuliaQFrac (fd : FracData) (C : Cq) (loc : Cq) : Option (Result Cq) :=
  quadQ fd loc C

/-- Model of a float64 value for the rational Julia variant, where IEEE
special values matter: a finite value (exact rational in place of a
rounded double), plus infinity, minus infinity, or NaN. -/
inductive FF where
  | fin : ℚ → FF
  | pinf : FF
  | ninf : FF
  | nan : FF
deriving DecidableEq

/-- Whether a float value is finite (neither an infinity nor NaN). -/
def FF.isFinite : FF → Bool
  | .fin _ => true
  | _ => false

/-- IEEE 754 addition on the modelled floats: NaN propagates, opposing
infinities give NaN, an infinity absorbs finite values, and finite
values add exactly (rounding is not modelled). -/
def FF.add : FF → FF → FF
  | .nan, _ => .nan
  | _, .nan => .nan
  | .pinf, .ninf => .nan
  | .ninf, .pinf => .nan
  | .pinf, _ => .pinf
  | _, .pinf => .pinf
  | .ninf, _ => .ninf
  | _, .ninf => .ninf
  | .fin a, .fin b => .fin (a + b)

/-- Model of complex128 for the rational Julia variant: componentwise FF. -/
structure FC where
  re : FF
  im : FF
deriving DecidableEq

/-- Whether both components of a complex value are finite. -/
def FC.isFinite (z : FC) : Bool :=
  z.re.isFinite && z.im.isFinite

/-- Go complex addition is componentwise float addition. -/
def fcAdd (x y : FC) : FC :=
  ⟨FF.add x.re y.re, FF.add x.im y.im⟩

/-- Embedding of the termination test cmplx.Abs(z) <= Radius of
JuliaR.Frac (frac.go:235) for a finite Radius.  cmplx.Abs is
math.Hypot(re, im): with an infinite component it is +Inf, with a NaN
component (and no infinity) it is NaN, and +Inf <= Radius and
NaN <= Radius are both false for finite Radius.  For finite z the real
inequality Hypot(a, b) <= R is equivalent to 0 <= R and a^2 + b^2 <= R^2,
which is how it is decided exactly here. -/
def modLe : FC → ℚ → Bool
  | ⟨.fin a, .fin b⟩, R => decide (0 ≤ R ∧ a * a + b * b ≤ R * R)
  | _, _ => false

/-- Step of JuliaR.Frac (frac.go:236): z = P(z)/Q(z) + C.  The claims
proved below hold for every division semantics, so complex128 division is
a parameter `div` of the model rather than a fixed definition; the final
addition of C is componentwise IEEE addition. -/
def juliaRStep (dv : FC → FC → FC) (P Q : FC → FC) (C : FC) (z : FC) : FC :=
  fcAdd (dv (P z) (Q z)) C

/-- Loop of JuliaR.Frac (frac.go:232-246) up to the ghost steps counter:
guard cmplx.Abs(z) <= Radius, step z = P(z)/Q(z) + C, counter break at
MaxIterations-1, started with fuel MaxIterations.toNat. -/
def juliaRRun (dv : FC → FC → FC) (P Q : FC → FC) (C : FC) (Radius : ℚ)
    (MaxIterations : ℤ) (loc : FC) : Option (EscState FC) :=
  escLoop (fun w => modLe w Radius) (juliaRStep dv P Q C) (MaxIterations - 1)
    MaxIterations.toNat loc 0 0

/-- Embedding of JuliaR.Frac (frac.go:232-246). -/
def JuliaRFrac (dv : FC → FC → FC) (P Q : FC → FC) (C : FC) (Radius : ℚ)
    (MaxIterations : ℤ) (loc : FC) : Option (Result FC) :=
  (juliaRRun dv P Q C Radius MaxIterations loc).map fun w => ⟨w.z, C, w.count, 0⟩

/-- Convergence test cmplx.Abs(w) < eps of MandelPG.Frac (frac.go:295)
decided exactly: for real values, Abs(w) < eps is equivalent to
0 < eps and re(w)^2 + im(w)^2 < eps^2, since Abs is nonnegative. -/
def absLt (w : Cq) (e : ℚ) : Bool :=
  decide (0 < e ∧ w.re * w.re + w.im * w.im < e * e)

/-- State of the polynomiograph loop: current iterate z, auxiliary value
c, and the Go-visible counter. -/
structure MpgState where
  z : Cq
  c : Cq
  count : ℤ
deriving DecidableEq

/-- Loop of MandelPG.Frac (frac.go:293-304):

  loop: zNext := B(z) - c
        if Abs(zNext - z) < eps then exit with (z, c, count)
        c := G(c); z := zNext
        if count == maxIt then exit with (z, c, count)
        count := count + 1

`fuel` bounds the number of loop entries; `none` models the loop still
running after `fuel` entries. -/
def mpgLoop (B G : Cq → Cq) (eps : ℚ) (maxIt : ℤ) :
    ℕ → Cq → Cq → ℤ → Option MpgState
  | 0, _, _, _ => none
  | fuel + 1, z, c, count =>
    if absLt ((B z - c) - z) eps then some ⟨z, c, count⟩
    else if count = maxIt then some ⟨B z - c, G c, count⟩
    else mpgLoop B G eps maxIt fuel (B z - c) (G c) (count + 1)

/-- Embedding of the MandelPG / Polynomiograph struct (frac.go:251-272):
shared FracData plus the maps B, F, G and the convergence threshold eps. -/
structure MandelPG where
  data : FracData
  B : Cq → Cq
  F : Cq → Cq
  G : Cq → Cq
  eps : ℚ

/-- Embedding of MandelPG.Frac (frac.go:289-312): z starts at the sample
point, c at F(sample); the loop runs with fuel MaxIterations.toNat. -/
def MandelPG.Frac (m : MandelPG) (loc : Cq) : Option (Result Cq) :=
  (mpgLoop m.B m.G m.eps (m.data.MaxIterations - 1) m.data.MaxIterations.toNat
      loc (m.F loc) 0).map fun w => ⟨w.z, w.c, w.count, 0⟩

/-- Auxiliary-value orbit of the polynomiograph: c 0 = F(loc) and
c (n+1) = G (c n), exactly the updates performed by the loop. -/
def mpgC (m : MandelPG) (loc : Cq) : ℕ → Cq
  | 0 => m.F loc
  | n + 1 => m.G (mpgC m loc n)

/-- Iterate orbit of the polynomiograph: z 0 = loc and
z (n+1) = B (z n) - c n, exactly the updates performed by the loop. -/
def mpgZ (m : MandelPG) (loc : Cq) : ℕ → Cq
  | 0 => loc
  | n + 1 => m.B (mpgZ m loc n) - mpgC m loc n

/-- The convergence test of the polynomiograph at orbit index n:
Abs(z (n+1) - z n) < eps, where z (n+1) is the zNext computed at that
loop entry. -/
def mpgConv (m : MandelPG) (loc : Cq) (n : ℕ) : Bool :=
  absLt (mpgZ m loc (n + 1) - mpgZ m loc n) m.eps

/-- Modelled from the spec: the DomainReader interface is declared outside
frac.go; per spec section 6 it exposes row/column dimensions and a point
lookup by (column, row) that can fail only out of range.  The model
carries the dimensions and a total sampling function; At wraps it with
the in-range check. -/
structure DomainReader where
  rows : ℤ
  cols : ℤ
  sample : ℤ → ℤ → Cq

/-- Modelled from the spec: point lookup At(col, row), which fails with a
domain-access fault exactly when the coordinate is out of range. -/
def DomainReader.At (d : DomainReader) (col row : ℤ) : Option Cq :=
  if 0 ≤ col ∧ col < d.cols ∧ 0 ≤ row ∧ row < d.rows then some (d.sample col row)
  else none

/-- Modelled from the spec: the Results store is declared outside frac.go;
per spec sections 5 and 6 it is a coordinate-addressed record store in
which every in-range coordinate is written exactly once and ordering of
the disjoint writes is irrelevant.  It is modelled by its final contents:
a partial map from (row, col) to the stored record. -/
def Grid : Type :=
  ℤ → ℤ → Option (Result Cq)

/-- Modelled from the spec: the contents of the result store after the
worker pool of FracIt (frac.go:47-73) has finished: each in-range (row,
col) holds the record produced by evaluating the variant at
At(col, row); out-of-range coordinates are never written.  The worker
interleaving is irrelevant because rows are assigned disjointly and each
coordinate is written exactly once (spec section 5), so the sequential
description below is the final store of every schedule. -/
def fillGrid (d : DomainReader) (f : Cq → Option (Result Cq)) : Grid :=
  fun row col =>
    if 0 ≤ row ∧ row < d.rows ∧ 0 ≤ col ∧ col < d.cols then
      match d.At col row with
      | some loc => f loc
      | none => none
    else none

/-- Embedding of FracIt (frac.go:33-76).  It first calls
SetMaxIterations(iterations) on the variant (returning its error and
leaving the variant untouched when iterations < 1), then checks the
domain shape (returning the shape error, with the variant already
reconfigured), and otherwise evaluates every sample.  The returned pair
carries the variant state after the call, since the Go code mutates the
variant in place, together with the outcome. -/
def FracIt (d : DomainReader) (fd : FracData) (frac : FracData → Cq → Option (Result Cq))
    (iterations : ℤ) : FracData × Except String Grid :=
  match fd.SetMaxIterations iterations with
  | Except.error e => (fd, Except.error e)
  | Except.ok fd2 =>
    if d.cols < 1 ∨ d.rows < 1 then
      (fd2, Except.error "gofrac: the domain must be sampled at least once along each axis")
    else (fd2, Except.ok (fillGrid d (frac fd2)))

/-- Cast helper: MaxIterations.toNat casts back to MaxIterations when the
configured count is at least 1. -/
theorem toNat_cast_of_one_le (M : ℤ) (h : 1 ≤ M) : (M.toNat : ℤ) = M :=
  Int.toNat_of_nonneg (by omega)

/-- The escape loop always exits when given fuel exceeding maxIt - count:
the final counter lies in [count, maxIt] and the number of recurrence
applications is at most (final counter - initial counter) + 1. -/
theorem escLoop_run {α : Type} (guard : α → Bool) (step : α → α) (maxIt : ℤ) :
    ∀ (fuel : ℕ) (z : α) (count : ℤ) (steps : ℕ),
      count ≤ maxIt → maxIt - count < (fuel : ℤ) →
      ∃ w : EscState α, escLoop guard step maxIt fuel z count steps = some w ∧
        count ≤ w.count ∧ w.count ≤ maxIt ∧
        (w.steps : ℤ) ≤ (steps : ℤ) + (w.count - count) + 1 := by
  intro fuel
  induction fuel with
  | zero =>
    intro z count steps h1 h2
    exfalso
    simp only [Nat.cast_zero] at h2
    omega
  | succ n ih =>
    intro z count steps h1 h2
    by_cases hg : guard z = true
    · by_cases hc : count = maxIt
      · refine ⟨⟨step z, count, steps + 1⟩, ?_, le_refl _, hc.le, ?_⟩
        · simp [escLoop, hg, hc]
        · push_cast
          omega
      · obtain ⟨w, hw, hw1, hw2, hw3⟩ :=
          ih (step z) (count + 1) (steps + 1) (by omega) (by push_cast at h2 ⊢; omega)
        refine ⟨w, ?_, by omega, hw2, by push_cast at hw3 ⊢; omega⟩
        simp [escLoop, hg, hc, hw]
    · refine ⟨⟨z, count, steps⟩, ?_, le_refl _, h1, by push_cast; omega⟩
      simp [escLoop, hg]

/-- When the guard fails, the escape loop exits at once, leaving the
iterate, the counter and the step count untouched: the test happens
before each application of the recurrence. -/
theorem escLoop_stop {α : Type} (guard : α → Bool) (step : α → α) (maxIt : ℤ)
    (fuel : ℕ) (z : α) (count : ℤ) (steps : ℕ) (h : guard z = false) :
    escLoop guard step maxIt (fuel + 1) z count steps = some ⟨z, count, steps⟩ := by
  simp [escLoop, h]

/-- When the guard holds, the counter break does not fire, and the guard
rejects the next iterate, the loop performs exactly one more step and
then exits with that iterate. -/
theorem escLoop_escape {α : Type} (guard : α → Bool) (step : α → α) (maxIt : ℤ)
    (fuel : ℕ) (z : α) (count : ℤ) (steps : ℕ)
    (h1 : guard z = true) (h2 : count ≠ maxIt) (h3 : guard (step z) = false) :
    escLoop guard step maxIt (fuel + 2) z count steps =
      some ⟨step z, count + 1, steps + 1⟩ := by
  show escLoop guard step maxIt ((fuel + 1) + 1) z count steps = _
  simp [escLoop, h1, h2, h3]

/-- Quadratic.q with MaxIterations >= 1: the loop exits within its fuel,
the counter ends in [0, MaxIterations-1], and at most MaxIterations
applications of z = z*z + c are performed. -/
theorem quadQFull_run (fd : FracData) (z c : Cq) (h : 1 ≤ fd.MaxIterations) :
    ∃ w : EscState Cq, quadQFull fd z c = some w ∧
      0 ≤ w.count ∧ w.count ≤ fd.MaxIterations - 1 ∧
      (w.steps : ℤ) ≤ fd.MaxIterations := by
  have ht := toNat_cast_of_one_le fd.MaxIterations h
  obtain ⟨w, hw, h1, h2, h3⟩ :=
    escLoop_run (fun w => decide (getMod2 w ≤ fd.Radius * fd.Radius)) (fun w => w * w + c)
      (fd.MaxIterations - 1) fd.MaxIterations.toNat z 0 0 (by omega) (by omega)
  refine ⟨w, ?_, h1, h2, by push_cast at h3 ⊢; omega⟩
  simpa [quadQFull, quadLoop] using hw

/-- C1: the claim states that getMod2(z) equals
real(z)*real(z) + imag(z)*imag(z) for every complex z.  The code
(frac.go:121) computes a*a + b+b, i.e. real^2 + 2*imag.  At z = i
(real 0, imag 1) the code returns 2 while the claimed squared modulus is
1, so the code contradicts the contract the spec states as intended
(spec sections 4.2 and 9 flag exactly this). -/
theorem getMod2_bug :
    getMod2 ⟨0, 1⟩ = 2 ∧
    (⟨0, 1⟩ : Cq).re * (⟨0, 1⟩ : Cq).re + (⟨0, 1⟩ : Cq).im * (⟨0, 1⟩ : Cq).im = 1 ∧
    (2 : ℚ) ≠ 1 := by
  refine ⟨?_, ?_, ?_⟩ <;> norm_num [getMod2]

/-- C2 (amended): for every starting value, parameter, radius and
MaxIterations >= 1, the quadratic core tests getMod2 of the current z
against radius^2 before each step and stops immediately on exceedance
(final conjunct); the returned iteration count lies in
[0, MaxIterations-1]; and at most MaxIterations (not MaxIterations-1)
applications of z = z*z + c are performed. -/
theorem quadQ_spec (fd : FracData) (z c : Cq) (h : 1 ≤ fd.MaxIterations) :
    ∃ w : EscState Cq,
      quadQFull fd z c = some w ∧
      quadQ fd z c = some ⟨w.z, c, w.count, 0⟩ ∧
      0 ≤ w.count ∧ w.count ≤ fd.MaxIterations - 1 ∧
      (w.steps : ℤ) ≤ fd.MaxIterations ∧
      (∀ (fuel : ℕ) (z0 : Cq) (k : ℤ) (s : ℕ), ¬ getMod2 z0 ≤ fd.Radius * fd.Radius →
        quadLoop (fd.Radius * fd.Radius) c (fd.MaxIterations - 1) (fuel + 1) z0 k s =
          some ⟨z0, k, s⟩) := by
  obtain ⟨w, hw, h1, h2, h3⟩ := quadQFull_run fd z c h
  refine ⟨w, hw, ?_, h1, h2, h3, ?_⟩
  · simp [quadQ, hw]
  · intro fuel z0 k s hz
    show escLoop _ _ _ _ _ _ _ = _
    exact escLoop_stop _ _ _ fuel z0 k s (by simp [hz])

/-- Witness for C2: at radius 2, MaxIterations 1, z0 = 0, c = 0 the
hypotheses of quadQ_spec hold and its conclusion is realized. -/
theorem quadQ_spec_witness :
    (1 : ℤ) ≤ (⟨2, 1⟩ : FracData).MaxIterations ∧
    ∃ w : EscState Cq,
      quadQFull ⟨2, 1⟩ ⟨0, 0⟩ ⟨0, 0⟩ = some w ∧
      quadQ ⟨2, 1⟩ ⟨0, 0⟩ ⟨0, 0⟩ = some ⟨w.z, ⟨0, 0⟩, w.count, 0⟩ ∧
      0 ≤ w.count ∧ w.count ≤ (⟨2, 1⟩ : FracData).MaxIterations - 1 ∧
      (w.steps : ℤ) ≤ (⟨2, 1⟩ : FracData).MaxIterations ∧
      (∀ (fuel : ℕ) (z0 : Cq) (k : ℤ) (s : ℕ),
        ¬ getMod2 z0 ≤ (⟨2, 1⟩ : FracData).Radius * (⟨2, 1⟩ : FracData).Radius →
        quadLoop ((⟨2, 1⟩ : FracData).Radius * (⟨2, 1⟩ : FracData).Radius) ⟨0, 0⟩
          ((⟨2, 1⟩ : FracData).MaxIterations - 1) (fuel + 1) z0 k s = some ⟨z0, k, s⟩) :=
  ⟨by decide, quadQ_spec ⟨2, 1⟩ ⟨0, 0⟩ ⟨0, 0⟩ (by decide)⟩

/-- Counterexample for C2 as stated: with radius 2, MaxIterations 1,
z0 = 0, c = 0 the loop applies the recurrence once (ghost steps counter
is 1), exceeding the claimed bound of MaxIterations - 1 = 0 steps. -/
theorem quadQ_steps_cex :
    quadQFull ⟨2, 1⟩ ⟨0, 0⟩ ⟨0, 0⟩ = some ⟨⟨0, 0⟩, 0, 1⟩ ∧
    ¬ ((1 : ℤ) ≤ (⟨2, 1⟩ : FracData).MaxIterations - 1) := by
  refine ⟨?_, by decide⟩
  norm_num [quadQFull, quadLoop, escLoop, getMod2, Cq.mul_def, Cq.add_def]

/-- C8: SetMaxIterations(n) errors exactly when n < 1 and otherwise
stores n; in this functional embedding a failing call returns only the
error, so the caller's configuration (the receiver f) is untouched. -/
theorem setMaxIterations_spec (f : FracData) (n : ℤ) :
    (n < 1 → f.SetMaxIterations n =
      Except.error "gofrac: the maximum iteration count must be greater than zero") ∧
    (1 ≤ n → f.SetMaxIterations n = Except.ok ⟨f.Radius, n⟩) ∧
    ((∃ e, f.SetMaxIterations n = Except.error e) ↔ n < 1) := by
  by_cases h : n < 1
  · refine ⟨fun _ => ?_, fun h2 => absurd h (by omega), ?_⟩
    · simp [FracData.SetMaxIterations, h]
    · simp [FracData.SetMaxIterations, h]
  · refine ⟨fun h2 => absurd h2 h, fun _ => ?_, ?_⟩
    · simp [FracData.SetMaxIterations, h]
    · simp [FracData.SetMaxIterations, h]

/-- Witness for C8: SetMaxIterations(0) fails and SetMaxIterations(3)
stores 3, on a configuration that previously stored 5. -/
theorem setMaxIterations_spec_witness :
    FracData.SetMaxIterations ⟨2, 5⟩ 0 =
      Except.error "gofrac: the maximum iteration count must be greater than zero" ∧
    FracData.SetMaxIterations ⟨2, 5⟩ 3 = Except.ok ⟨2, 3⟩ :=
  ⟨(setMaxIterations_spec ⟨2, 5⟩ 0).1 (by decide),
   (setMaxIterations_spec ⟨2, 5⟩ 3).2.1 (by decide)⟩

/-- The cardioid-or-bulb test of the code is equivalent to the conditions
as the spec words them: with p = re - 1/4 and q = p^2 + im^2, either
q*(q+p) <= im^2/4 (main cardioid) or (re+1)^2 + im^2 <= 1/16 (period-2
bulb).  The code writes the constants as 0.25 and 0.0625 and the bound as
0.25*im^2; these are the same exact rationals. -/
theorem isCardioidOrP2Bulb_iff (z : Cq) (maxIt : ℤ) :
    isCardioidOrP2Bulb z maxIt = true ↔
      (((z.re - 1 / 4) * (z.re - 1 / 4) + z.im * z.im) *
          (((z.re - 1 / 4) * (z.re - 1 / 4) + z.im * z.im) + (z.re - 1 / 4)) ≤
            z.im * z.im / 4 ∨
        (z.re + 1) * (z.re + 1) + z.im * z.im ≤ 1 / 16) := by
  have e1 : (0.25 : ℚ) = 1 / 4 := by norm_num
  have e2 : (0.0625 : ℚ) = 1 / 16 := by norm_num
  have e3 : z.im * z.im / 4 = (1 / 4 : ℚ) * (z.im * z.im) := by ring
  simp only [isCardioidOrP2Bulb, e1, e2, e3]
  by_cases hA : ((z.re - 1 / 4) * (z.re - 1 / 4) + z.im * z.im) *
      (((z.re - 1 / 4) * (z.re - 1 / 4) + z.im * z.im) + (z.re - 1 / 4)) ≤
        (1 / 4 : ℚ) * (z.im * z.im)
  · simp [hA]
  · simp [hA]

/-- Mandelbrot.Frac with MaxIterations >= 1 always yields a record whose
iteration count lies in [0, MaxIterations-1]: the interior shortcut
returns MaxIterations-1 and the quadratic core obeys the same bound. -/
theorem mandelFrac_bounds (fd : FracData) (loc : Cq) (h : 1 ≤ fd.MaxIterations) :
    ∃ r : Result Cq, MandelbrotFrac fd loc = some r ∧
      0 ≤ r.Iterations ∧ r.Iterations ≤ fd.MaxIterations - 1 := by
  by_cases hb : isCardioidOrP2Bulb loc fd.MaxIterations = true
  · refine ⟨⟨loc, 0, fd.MaxIterations - 1, 0⟩, by simp [MandelbrotFrac, hb], ?_, le_refl _⟩
    show (0 : ℤ) ≤ fd.MaxIterations - 1
    omega
  · obtain ⟨w, hw, h1, h2, _⟩ := quadQFull_run fd 0 loc h
    refine ⟨⟨w.z, loc, w.count, 0⟩, ?_, h1, h2⟩
    simp [MandelbrotFrac, hb, quadQ, hw]

/-- C4: a parameter c satisfying the spec's main-cardioid condition
(with p = Re(c)-1/4, q = p^2+Im(c)^2: q*(q+p) <= Im(c)^2/4) or its
period-2-bulb condition ((Re(c)+1)^2+Im(c)^2 <= 1/16) short-circuits
Mandelbrot.Frac to the record (z = c, c = 0,
iterations = MaxIterations-1) without iterating; any other c is handed
to the shared quadratic core with z0 = 0 and parameter c. -/
theorem MandelbrotFrac_spec (fd : FracData) (c : Cq) :
    ((((c.re - 1 / 4) * (c.re - 1 / 4) + c.im * c.im) *
          (((c.re - 1 / 4) * (c.re - 1 / 4) + c.im * c.im) + (c.re - 1 / 4)) ≤
            c.im * c.im / 4 ∨
        (c.re + 1) * (c.re + 1) + c.im * c.im ≤ 1 / 16) →
      MandelbrotFrac fd c = some ⟨c, 0, fd.MaxIterations - 1, 0⟩) ∧
    (¬ (((c.re - 1 / 4) * (c.re - 1 / 4) + c.im * c.im) *
          (((c.re - 1 / 4) * (c.re - 1 / 4) + c.im * c.im) + (c.re - 1 / 4)) ≤
            c.im * c.im / 4 ∨
        (c.re + 1) * (c.re + 1) + c.im * c.im ≤ 1 / 16) →
      MandelbrotFrac fd c = quadQ fd 0 c) := by
  constructor
  · intro h
    have hb : isCardioidOrP2Bulb c fd.MaxIterations = true :=
      (isCardioidOrP2Bulb_iff c fd.MaxIterations).mpr h
    simp [MandelbrotFrac, hb]
  · intro h
    have hb : isCardioidOrP2Bulb c fd.MaxIterations = false := by
      by_cases hb2 : isCardioidOrP2Bulb c fd.MaxIterations = true
      · exact absurd ((isCardioidOrP2Bulb_iff c fd.MaxIterations).mp hb2) h
      · simpa using hb2
    simp [MandelbrotFrac, hb]

/-- Witness for C4: c = 0 lies in the main cardioid and Mandelbrot.Frac
with MaxIterations 5 returns (z = 0, c = 0, iterations = 4) there. -/
theorem MandelbrotFrac_spec_witness :
    ((((0 : ℚ) - 1 / 4) * ((0 : ℚ) - 1 / 4) + 0 * 0) *
          ((((0 : ℚ) - 1 / 4) * ((0 : ℚ) - 1 / 4) + 0 * 0) + ((0 : ℚ) - 1 / 4)) ≤
            (0 : ℚ) * 0 / 4 ∨
        ((0 : ℚ) + 1) * ((0 : ℚ) + 1) + 0 * 0 ≤ 1 / 16) ∧
    MandelbrotFrac ⟨2, 5⟩ ⟨0, 0⟩ = some ⟨⟨0, 0⟩, 0, 4, 0⟩ :=
  ⟨by norm_num, (MandelbrotFrac_spec ⟨2, 5⟩ ⟨0, 0⟩).1 (by norm_num)⟩

/-- One non-converging, non-final entry of the polynomiograph loop
updates c by G, moves z to zNext = B(z) - c, and increments the counter. -/
theorem mpgLoop_step (B G : Cq → Cq) (eps : ℚ) (maxIt : ℤ) (fuel : ℕ) (z c : Cq) (count : ℤ)
    (h1 : absLt ((B z - c) - z) eps = false) (h2 : count ≠ maxIt) :
    mpgLoop B G eps maxIt (fuel + 1) z c count =
      mpgLoop B G eps maxIt fuel (B z - c) (G c) (count + 1) := by
  simp [mpgLoop, h1, h2]

/-- When the convergence test fires, the polynomiograph loop exits with
the PREVIOUS iterate z and the UNADVANCED c: both updates are skipped. -/
theorem mpgLoop_conv (B G : Cq → Cq) (eps : ℚ) (maxIt : ℤ) (fuel : ℕ) (z c : Cq) (count : ℤ)
    (h : absLt ((B z - c) - z) eps = true) :
    mpgLoop B G eps maxIt (fuel + 1) z c count = some ⟨z, c, count⟩ := by
  simp [mpgLoop, h]

/-- The polynomiograph loop exits within its fuel whenever the fuel
exceeds maxIt - count. -/
theorem mpgLoop_some (B G : Cq → Cq) (eps : ℚ) (maxIt : ℤ) :
    ∀ (fuel : ℕ) (z c : Cq) (count : ℤ),
      count ≤ maxIt → maxIt - count < (fuel : ℤ) →
      (mpgLoop B G eps maxIt fuel z c count).isSome = true := by
  intro fuel
  induction fuel with
  | zero =>
    intro z c count h1 h2
    exfalso
    simp only [Nat.cast_zero] at h2
    omega
  | succ n ih =>
    intro z c count h1 h2
    by_cases hcv : absLt ((B z - c) - z) eps = true
    · simp [mpgLoop, hcv]
    · by_cases hcnt : count = maxIt
      · simp [mpgLoop, hcv, hcnt]
      · have hrec := ih (B z - c) (G c) (count + 1) (by omega) (by push_cast at h2 ⊢; omega)
        simpa [mpgLoop, hcv, hcnt] using hrec

/-- With maxIt < 0 (that is, MaxIterations <= 0) and a convergence test
that never fires, the polynomiograph loop never exits: the counter break
count == maxIt is unreachable from count = 0, so every fuel runs out.
This is the Go loop of MandelPG.Frac failing to terminate. -/
theorem mpgLoop_divergent (B G : Cq → Cq) (eps : ℚ) (maxIt : ℤ)
    (hmax : maxIt < 0) (hconv : ∀ z c : Cq, absLt ((B z - c) - z) eps = false) :
    ∀ (fuel : ℕ) (z c : Cq) (count : ℤ), 0 ≤ count →
      mpgLoop B G eps maxIt fuel z c count = none := by
  intro fuel
  induction fuel with
  | zero => intro z c count _; rfl
  | succ n ih =>
    intro z c count hc
    rw [mpgLoop_step B G eps maxIt n z c count (hconv z c) (by omega)]
    exact ih _ _ _ (by omega)

/-- Reaching orbit index k: as long as neither the convergence test nor
the counter break fires before index k, the loop state after k entries is
(mpgZ k, mpgC k, k). -/
theorem mpgLoop_reach (m : MandelPG) (loc : Cq) (maxIt : ℤ) :
    ∀ (k fuel : ℕ),
      (∀ j < k, mpgConv m loc j = false) →
      (∀ j < k, (j : ℤ) ≠ maxIt) →
      mpgLoop m.B m.G m.eps maxIt (k + (fuel + 1)) loc (m.F loc) 0 =
        mpgLoop m.B m.G m.eps maxIt (fuel + 1) (mpgZ m loc k) (mpgC m loc k) (k : ℤ) := by
  intro k
  induction k with
  | zero =>
    intro fuel _ _
    simp [mpgZ, mpgC]
  | succ n ih =>
    intro fuel hconv hne
    have h1 : ∀ j < n, mpgConv m loc j = false := fun j hj => hconv j (by omega)
    have h2 : ∀ j < n, (j : ℤ) ≠ maxIt := fun j hj => hne j (by omega)
    have e : (n + 1) + (fuel + 1) = n + ((fuel + 1) + 1) := by omega
    rw [e, ih (fuel + 1) h1 h2]
    have hc2 : absLt ((m.B (mpgZ m loc n) - mpgC m loc n) - mpgZ m loc n) m.eps = false :=
      hconv n (by omega)
    rw [mpgLoop_step m.B m.G m.eps maxIt (fuel + 1) (mpgZ m loc n) (mpgC m loc n) (n : ℤ)
      hc2 (hne n (by omega))]
    have e2 : ((n : ℤ) + 1) = ((n + 1 : ℕ) : ℤ) := by push_cast; ring
    rw [e2]
    rfl

/-- If the convergence test first fires at orbit index k and k is within
the counter budget, MandelPG.Frac returns exactly the orbit state at k:
the record (mpgZ k, mpgC k, k). -/
theorem mpgFrac_conv_aux (m : MandelPG) (loc : Cq) (k : ℕ)
    (hM : 1 ≤ m.data.MaxIterations)
    (hfirst : ∀ j < k, mpgConv m loc j = false)
    (hconv : mpgConv m loc k = true)
    (hk : (k : ℤ) ≤ m.data.MaxIterations - 1) :
    MandelPG.Frac m loc = some ⟨mpgZ m loc k, mpgC m loc k, (k : ℤ), 0⟩ := by
  have ht := toNat_cast_of_one_le m.data.MaxIterations hM
  obtain ⟨f, hf⟩ : ∃ f : ℕ, m.data.MaxIterations.toNat = k + (f + 1) :=
    ⟨m.data.MaxIterations.toNat - k - 1, by omega⟩
  have hne : ∀ j < k, (j : ℤ) ≠ m.data.MaxIterations - 1 := by
    intro j hj
    omega
  have hc2 : absLt ((m.B (mpgZ m loc k) - mpgC m loc k) - mpgZ m loc k) m.eps = true := hconv
  unfold MandelPG.Frac
  rw [hf, mpgLoop_reach m loc (m.data.MaxIterations - 1) k f hfirst hne,
    mpgLoop_conv m.B m.G m.eps (m.data.MaxIterations - 1) f (mpgZ m loc k) (mpgC m loc k)
      (k : ℤ) hc2]
  rfl

/-- C6: the polynomiograph initializes c0 = F(sample), z0 = sample,
computes zNext = B(z) - c each entry, stops when Abs(zNext - z) < eps,
and otherwise advances c by G; when B, F, G make the convergence test
first fire at orbit index k < MaxIterations - 1, the returned iteration
count is exactly k.  (mpgZ and mpgC are precisely the orbits z0 = sample,
z n+1 = B(z n) - c n, c0 = F(sample), c n+1 = G(c n); mpgConv k decides
Abs(z k+1 - z k) < eps.) -/
theorem MandelPGFrac_convergence (m : MandelPG) (loc : Cq) (k : ℕ)
    (hM : 1 ≤ m.data.MaxIterations)
    (hfirst : ∀ j < k, mpgConv m loc j = false)
    (hconv : mpgConv m loc k = true)
    (hk : (k : ℤ) < m.data.MaxIterations - 1) :
    ∃ r : Result Cq, MandelPG.Frac m loc = some r ∧ r.Iterations = (k : ℤ) :=
  ⟨⟨mpgZ m loc k, mpgC m loc k, (k : ℤ), 0⟩,
    mpgFrac_conv_aux m loc k hM hfirst hconv (by omega), rfl⟩

/-- Witness for C6: with B = id, F = 0, G = id, eps = 1, MaxIterations
3, the loop converges at index 0 and the returned count is 0. -/
theorem MandelPGFrac_convergence_witness :
    mpgConv ⟨⟨2, 3⟩, fun z => z, fun _ => ⟨0, 0⟩, fun c => c, 1⟩ ⟨0, 0⟩ 0 = true ∧
    ∃ r : Result Cq,
      MandelPG.Frac ⟨⟨2, 3⟩, fun z => z, fun _ => ⟨0, 0⟩, fun c => c, 1⟩ ⟨0, 0⟩ = some r ∧
      r.Iterations = ((0 : ℕ) : ℤ) := by
  have hconv : mpgConv ⟨⟨2, 3⟩, fun z => z, fun _ => ⟨0, 0⟩, fun c => c, 1⟩ ⟨0, 0⟩ 0 = true := by
    norm_num [mpgConv, mpgZ, mpgC, absLt, Cq.sub_def]
  exact ⟨hconv,
    MandelPGFrac_convergence ⟨⟨2, 3⟩, fun z => z, fun _ => ⟨0, 0⟩, fun c => c, 1⟩ ⟨0, 0⟩ 0
      (by decide) (fun j hj => absurd hj (Nat.not_lt_zero j)) hconv (by decide)⟩

/-- C10: when the polynomiograph stops through the convergence test at
orbit index k, the returned record carries z = mpgZ k (the previous
iterate, not the zNext that triggered convergence) and c = mpgC k (not
advanced by G): both updates are skipped on the convergence exit. -/
theorem MandelPGFrac_convExit (m : MandelPG) (loc : Cq) (k : ℕ)
    (hM : 1 ≤ m.data.MaxIterations)
    (hfirst : ∀ j < k, mpgConv m loc j = false)
    (hconv : mpgConv m loc k = true)
    (hk : (k : ℤ) ≤ m.data.MaxIterations - 1) :
    MandelPG.Frac m loc = some ⟨mpgZ m loc k, mpgC m loc k, (k : ℤ), 0⟩ :=
  mpgFrac_conv_aux m loc k hM hfirst hconv hk

/-- Witness for C10: with B = id, F = 0, G = id, eps = 1 and
MaxIterations 1, convergence fires at index 0 (= MaxIterations - 1) and
the record is the orbit state at 0. -/
theorem MandelPGFrac_convExit_witness :
    mpgConv ⟨⟨2, 1⟩, fun z => z, fun _ => ⟨0, 0⟩, fun c => c, 1⟩ ⟨0, 0⟩ 0 = true ∧
    MandelPG.Frac ⟨⟨2, 1⟩, fun z => z, fun _ => ⟨0, 0⟩, fun c => c, 1⟩ ⟨0, 0⟩ =
      some ⟨mpgZ ⟨⟨2, 1⟩, fun z => z, fun _ => ⟨0, 0⟩, fun c => c, 1⟩ ⟨0, 0⟩ 0,
        mpgC ⟨⟨2, 1⟩, fun z => z, fun _ => ⟨0, 0⟩, fun c => c, 1⟩ ⟨0, 0⟩ 0, ((0 : ℕ) : ℤ), 0⟩ := by
  have hconv : mpgConv ⟨⟨2, 1⟩, fun z => z, fun _ => ⟨0, 0⟩, fun c => c, 1⟩ ⟨0, 0⟩ 0 = true := by
    norm_num [mpgConv, mpgZ, mpgC, absLt, Cq.sub_def]
  exact ⟨hconv,
    MandelPGFrac_convExit ⟨⟨2, 1⟩, fun z => z, fun _ => ⟨0, 0⟩, fun c => c, 1⟩ ⟨0, 0⟩ 0
      (by decide) (fun j hj => absurd hj (Nat.not_lt_zero j)) hconv (by decide)⟩

/-- JuliaR.Frac's loop with MaxIterations >= 1 always exits within its
fuel, with final counter in [0, MaxIterations-1] and at most
MaxIterations applications of z = P(z)/Q(z) + C. -/
theorem juliaRRun_some (dv : FC → FC → FC) (P Q : FC → FC) (Cf : FC) (Rf : ℚ) (Mf : ℤ)
    (locF : FC) (h : 1 ≤ Mf) :
    ∃ w : EscState FC, juliaRRun dv P Q Cf Rf Mf locF = some w ∧
      0 ≤ w.count ∧ w.count ≤ Mf - 1 ∧ (w.steps : ℤ) ≤ Mf := by
  have ht := toNat_cast_of_one_le Mf h
  obtain ⟨w, hw, h1, h2, h3⟩ :=
    escLoop_run (fun w => modLe w Rf) (juliaRStep dv P Q Cf) (Mf - 1) Mf.toNat locF 0 0
      (by omega) (by omega)
  refine ⟨w, ?_, h1, h2, by push_cast at h3 ⊢; omega⟩
  simpa [juliaRRun] using hw

/-- A non-finite complex value never passes the modulus test against a
finite radius: its Hypot-modulus is +Inf or NaN, and both comparisons
with a finite radius are false. -/
theorem modLe_nonfinite (z : FC) (R : ℚ) (h : z.isFinite = false) : modLe z R = false := by
  rcases z with ⟨a, b⟩
  cases a <;> cases b <;> simp_all [FC.isFinite, FF.isFinite, modLe]

/-- Adding a finite value to a non-finite one never produces a finite
value: infinities stay infinite (or become NaN), NaN propagates. -/
theorem fcAdd_nonfinite (x y : FC) (hx : x.isFinite = false) (hy : y.isFinite = true) :
    (fcAdd x y).isFinite = false := by
  rcases x with ⟨a, b⟩
  rcases y with ⟨c, d⟩
  cases a <;> cases b <;> cases c <;> cases d <;>
    simp_all [FC.isFinite, FF.isFinite, FF.add, fcAdd]

/-- C7 (amended): JuliaR.Frac iterates z = P(z)/Q(z) + C with the
UNSQUARED modulus tested against Radius before each step (the guard
modLe), stopping on the first exceedance or once the counter reaches
MaxIterations-1 — at which point up to MaxIterations steps have been
applied (third component of the first conjunct); evaluation always
returns a record (no error path), the returned count lies in
[0, MaxIterations-1], and whenever the division produces an infinite or
NaN value (and C is finite), the next iterate is non-finite, the
subsequent modulus test classifies it as escaped, and the loop
terminates there with that iterate. -/
theorem JuliaRFrac_spec (dv : FC → FC → FC) (P Q : FC → FC) (Cf : FC) (Rf : ℚ) (Mf : ℤ)
    (locF : FC) (hM : 1 ≤ Mf) :
    (∃ w : EscState FC, juliaRRun dv P Q Cf Rf Mf locF = some w ∧
        JuliaRFrac dv P Q Cf Rf Mf locF = some ⟨w.z, Cf, w.count, 0⟩ ∧
        0 ≤ w.count ∧ w.count ≤ Mf - 1 ∧ (w.steps : ℤ) ≤ Mf) ∧
    (∀ v : FC, v.isFinite = false → modLe v Rf = false) ∧
    (∀ (fuel : ℕ) (v : FC) (count : ℤ) (steps : ℕ),
        modLe v Rf = true → count ≠ Mf - 1 → Cf.isFinite = true →
        (dv (P v) (Q v)).isFinite = false →
        (juliaRStep dv P Q Cf v).isFinite = false ∧
        escLoop (fun w => modLe w Rf) (juliaRStep dv P Q Cf) (Mf - 1) (fuel + 2) v count steps =
          some ⟨juliaRStep dv P Q Cf v, count + 1, steps + 1⟩) := by
  refine ⟨?_, fun v hv => modLe_nonfinite v Rf hv, ?_⟩
  · obtain ⟨w, hw, h1, h2, h3⟩ := juliaRRun_some dv P Q Cf Rf Mf locF hM
    exact ⟨w, hw, by simp [JuliaRFrac, hw], h1, h2, h3⟩
  · intro fuel v count steps hg hcnt hCfin hdiv
    have hstep : (juliaRStep dv P Q Cf v).isFinite = false :=
      fcAdd_nonfinite (dv (P v) (Q v)) Cf hdiv hCfin
    exact ⟨hstep,
      escLoop_escape (fun w => modLe w Rf) (juliaRStep dv P Q Cf) (Mf - 1) fuel v count steps
        hg hcnt (modLe_nonfinite (juliaRStep dv P Q Cf v) Rf hstep)⟩

/-- Witness for C7: concrete maps (dv returns its first argument, P, Q
the identity, C = 0, radius 2, MaxIterations 1) satisfy the hypothesis
and realize the conclusion. -/
theorem JuliaRFrac_spec_witness :
    (1 : ℤ) ≤ 1 ∧
    ((∃ w : EscState FC,
        juliaRRun (fun a _ => a) (fun w => w) (fun w => w) ⟨.fin 0, .fin 0⟩ 2 1
            ⟨.fin 0, .fin 0⟩ = some w ∧
        JuliaRFrac (fun a _ => a) (fun w => w) (fun w => w) ⟨.fin 0, .fin 0⟩ 2 1
            ⟨.fin 0, .fin 0⟩ = some ⟨w.z, ⟨.fin 0, .fin 0⟩, w.count, 0⟩ ∧
        0 ≤ w.count ∧ w.count ≤ 1 - 1 ∧ (w.steps : ℤ) ≤ 1) ∧
      (∀ v : FC, v.isFinite = false → modLe v 2 = false) ∧
      (∀ (fuel : ℕ) (v : FC) (count : ℤ) (steps : ℕ),
          modLe v 2 = true → count ≠ 1 - 1 → FC.isFinite ⟨.fin 0, .fin 0⟩ = true →
          ((fun a _ => a : FC → FC → FC) ((fun w => w : FC → FC) v)
              ((fun w => w : FC → FC) v)).isFinite = false →
          (juliaRStep (fun a _ => a) (fun w => w) (fun w => w) ⟨.fin 0, .fin 0⟩ v).isFinite
              = false ∧
          escLoop (fun w => modLe w 2)
              (juliaRStep (fun a _ => a) (fun w => w) (fun w => w) ⟨.fin 0, .fin 0⟩) (1 - 1)
              (fuel + 2) v count steps =
            some ⟨juliaRStep (fun a _ => a) (fun w => w) (fun w => w) ⟨.fin 0, .fin 0⟩ v,
              count + 1, steps + 1⟩)) :=
  ⟨le_refl 1,
    JuliaRFrac_spec (fun a _ => a) (fun w => w) (fun w => w) ⟨.fin 0, .fin 0⟩ 2 1
      ⟨.fin 0, .fin 0⟩ (le_refl 1)⟩

/-- Counterexample for C7 as stated: with dv returning its first
argument, P = Q = id, C = 0, radius 2, MaxIterations 1 and sample 0, the
loop applies the step once (ghost steps counter 1), not at most
MaxIterations - 1 = 0 times. -/
theorem JuliaR_steps_cex :
    juliaRRun (fun a _ => a) (fun w => w) (fun w => w) ⟨.fin 0, .fin 0⟩ 2 1 ⟨.fin 0, .fin 0⟩ =
      some ⟨⟨.fin 0, .fin 0⟩, 0, 1⟩ ∧
    ¬ ((1 : ℤ) ≤ 1 - 1) := by
  refine ⟨?_, by decide⟩
  norm_num [juliaRRun, escLoop, juliaRStep, fcAdd, FF.add, modLe]

/-- C9: every variant with configured MaxIterations >= 1 terminates on
every input point: each embedded evaluation runs its loop with fuel
MaxIterations.toNat (at most MaxIterations loop entries) and that fuel is
never exhausted, so a record is always produced.  The final conjunct
shows the precondition is needed for the polynomiograph: with
MaxIterations = 0 (counter break target -1) and a convergence test that
never fires (eps = 0), the loop runs out of every fuel, i.e. the Go loop
would not terminate. -/
theorem variants_terminate (fd : FracData) (z c loc Cj : Cq) (m : MandelPG)
    (dv : FC → FC → FC) (P Q : FC → FC) (Cf : FC) (Rf : ℚ) (Mf : ℤ) (locF : FC)
    (h1 : 1 ≤ fd.MaxIterations) (h2 : 1 ≤ Mf) (h3 : 1 ≤ m.data.MaxIterations) :
    (quadQ fd z c).isSome = true ∧
    (MandelbrotFrac fd loc).isSome = true ∧
    (JuliaQFrac fd Cj loc).isSome = true ∧
    (JuliaRFrac dv P Q Cf Rf Mf locF).isSome = true ∧
    (MandelPG.Frac m loc).isSome = true ∧
    (∀ fuel : ℕ,
      mpgLoop (fun w => w) (fun w => w) 0 (-1) fuel ⟨0, 0⟩ ⟨0, 0⟩ 0 = none) := by
  refine ⟨?_, ?_, ?_, ?_, ?_, ?_⟩
  · obtain ⟨w, hw, _, _, _⟩ := quadQFull_run fd z c h1
    simp [quadQ, hw]
  · obtain ⟨r, hr, _, _⟩ := mandelFrac_bounds fd loc h1
    simp [hr]
  · obtain ⟨w, hw, _, _, _⟩ := quadQFull_run fd loc Cj h1
    simp [JuliaQFrac, quadQ, hw]
  · obtain ⟨w, hw, _, _, _⟩ := juliaRRun_some dv P Q Cf Rf Mf locF h2
    simp [JuliaRFrac, hw]
  · have ht := toNat_cast_of_one_le m.data.MaxIterations h3
    have hs := mpgLoop_some m.B m.G m.eps (m.data.MaxIterations - 1)
      m.data.MaxIterations.toNat loc (m.F loc) 0 (by omega) (by omega)
    rcases Option.isSome_iff_exists.mp hs with ⟨s, hss⟩
    simp [MandelPG.Frac, hss]
  · intro fuel
    exact mpgLoop_divergent (fun w => w) (fun w => w) 0 (-1) (by decide)
      (fun z0 c0 => by norm_num [absLt]) fuel ⟨0, 0⟩ ⟨0, 0⟩ 0 (le_refl 0)

/-- Witness for C9: all hypotheses hold at MaxIterations 1 for concrete
variants, and the termination conclusions are realized there. -/
theorem variants_terminate_witness :
    (1 : ℤ) ≤ (⟨2, 1⟩ : FracData).MaxIterations ∧
    ((quadQ ⟨2, 1⟩ ⟨0, 0⟩ ⟨0, 0⟩).isSome = true ∧
      (MandelbrotFrac ⟨2, 1⟩ ⟨0, 0⟩).isSome = true ∧
      (JuliaQFrac ⟨2, 1⟩ ⟨0, 0⟩ ⟨0, 0⟩).isSome = true ∧
      (JuliaRFrac (fun a _ => a) (fun w => w) (fun w => w) ⟨.fin 0, .fin 0⟩ 2 1
          ⟨.fin 0, .fin 0⟩).isSome = true ∧
      (MandelPG.Frac ⟨⟨2, 1⟩, fun w => w, fun w => w, fun w => w, 1⟩ ⟨0, 0⟩).isSome = true ∧
      (∀ fuel : ℕ,
        mpgLoop (fun w => w) (fun w => w) 0 (-1) fuel ⟨0, 0⟩ ⟨0, 0⟩ 0 = none)) :=
  ⟨by decide,
    variants_terminate ⟨2, 1⟩ ⟨0, 0⟩ ⟨0, 0⟩ ⟨0, 0⟩ ⟨0, 0⟩
      ⟨⟨2, 1⟩, fun w => w, fun w => w, fun w => w, 1⟩
      (fun a _ => a) (fun w => w) (fun w => w) ⟨.fin 0, .fin 0⟩ 2 1 ⟨.fin 0, .fin 0⟩
      (by decide) (by decide) (by decide)⟩

/-- C3: for a domain with rows >= 1 and cols >= 1, maxIterations >= 1,
and a variant whose records always carry an iteration count in
[0, MaxIterations-1] (as all variants of this package do), FracIt
succeeds and its result store holds a record exactly at every in-range
coordinate — rows x cols populated records in total (the coordinate box
has cardinality rows*cols) — each with iterations in
[0, maxIterations-1]. -/
theorem FracIt_complete (d : DomainReader) (fd : FracData)
    (frac : FracData → Cq → Option (Result Cq)) (iterations : ℤ)
    (hit : 1 ≤ iterations) (hr : 1 ≤ d.rows) (hc : 1 ≤ d.cols)
    (hfrac : ∀ (g : FracData) (loc : Cq), 1 ≤ g.MaxIterations →
      ∃ r : Result Cq, frac g loc = some r ∧ 0 ≤ r.Iterations ∧
        r.Iterations ≤ g.MaxIterations - 1) :
    ∃ grid : Grid, (FracIt d fd frac iterations).2 = Except.ok grid ∧
      (∀ row col : ℤ, (grid row col).isSome = true ↔
        (0 ≤ row ∧ row < d.rows ∧ 0 ≤ col ∧ col < d.cols)) ∧
      (∀ (row col : ℤ) (r : Result Cq), grid row col = some r →
        0 ≤ r.Iterations ∧ r.Iterations ≤ iterations - 1) ∧
      ((Finset.Icc 0 (d.rows - 1)) ×ˢ (Finset.Icc 0 (d.cols - 1))).card =
        d.rows.toNat * d.cols.toNat := by
  have hok : fd.SetMaxIterations iterations = Except.ok ⟨fd.Radius, iterations⟩ := by
    simp [FracData.SetMaxIterations, show ¬ iterations < 1 by omega]
  refine ⟨fillGrid d (frac ⟨fd.Radius, iterations⟩), ?_, ?_, ?_, ?_⟩
  · simp [FracIt, hok, show ¬ (d.cols < 1 ∨ d.rows < 1) by omega]
  · intro row col
    by_cases hin : 0 ≤ row ∧ row < d.rows ∧ 0 ≤ col ∧ col < d.cols
    · have hAt : d.At col row = some (d.sample col row) := by
        simp only [DomainReader.At, if_pos (show 0 ≤ col ∧ col < d.cols ∧ 0 ≤ row ∧ row < d.rows
          by tauto)]
      obtain ⟨r, hrr, _, _⟩ := hfrac ⟨fd.Radius, iterations⟩ (d.sample col row) hit
      simp [fillGrid, hin, hAt, hrr]
    · simp [fillGrid, hin]
  · intro row col r hsome
    by_cases hin : 0 ≤ row ∧ row < d.rows ∧ 0 ≤ col ∧ col < d.cols
    · have hAt : d.At col row = some (d.sample col row) := by
        simp only [DomainReader.At, if_pos (show 0 ≤ col ∧ col < d.cols ∧ 0 ≤ row ∧ row < d.rows
          by tauto)]
      obtain ⟨r2, hrr, hb1, hb2⟩ := hfrac ⟨fd.Radius, iterations⟩ (d.sample col row) hit
      have : frac ⟨fd.Radius, iterations⟩ (d.sample col row) = some r := by
        simpa [fillGrid, hin, hAt] using hsome
      rw [this] at hrr
      obtain rfl : r2 = r := by simpa using hrr.symm
      exact ⟨hb1, hb2⟩
    · simp [fillGrid, hin] at hsome
  · rw [Finset.card_product, Int.card_Icc, Int.card_Icc]
    have e1 : d.rows - 1 + 1 - 0 = d.rows := by ring
    have e2 : d.cols - 1 + 1 - 0 = d.cols := by ring
    rw [e1, e2]

/-- Witness for C3: a 1 x 1 domain, the Mandelbrot variant (whose
iteration bound is mandelFrac_bounds) and maxIterations 1 satisfy the
hypotheses and realize the conclusion. -/
theorem FracIt_complete_witness :
    (1 : ℤ) ≤ 1 ∧
    (1 : ℤ) ≤ (⟨1, 1, fun _ _ => ⟨0, 0⟩⟩ : DomainReader).rows ∧
    (1 : ℤ) ≤ (⟨1, 1, fun _ _ => ⟨0, 0⟩⟩ : DomainReader).cols ∧
    (∀ (g : FracData) (loc : Cq), 1 ≤ g.MaxIterations →
      ∃ r : Result Cq, MandelbrotFrac g loc = some r ∧ 0 ≤ r.Iterations ∧
        r.Iterations ≤ g.MaxIterations - 1) ∧
    ∃ grid : Grid,
      (FracIt ⟨1, 1, fun _ _ => ⟨0, 0⟩⟩ ⟨2, 7⟩ MandelbrotFrac 1).2 = Except.ok grid ∧
      (∀ row col : ℤ, (grid row col).isSome = true ↔
        (0 ≤ row ∧ row < (⟨1, 1, fun _ _ => ⟨0, 0⟩⟩ : DomainReader).rows ∧
          0 ≤ col ∧ col < (⟨1, 1, fun _ _ => ⟨0, 0⟩⟩ : DomainReader).cols)) ∧
      (∀ (row col : ℤ) (r : Result Cq), grid row col = some r →
        0 ≤ r.Iterations ∧ r.Iterations ≤ 1 - 1) ∧
      ((Finset.Icc 0 ((⟨1, 1, fun _ _ => ⟨0, 0⟩⟩ : DomainReader).rows - 1)) ×ˢ
          (Finset.Icc 0 ((⟨1, 1, fun _ _ => ⟨0, 0⟩⟩ : DomainReader).cols - 1))).card =
        (⟨1, 1, fun _ _ => ⟨0, 0⟩⟩ : DomainReader).rows.toNat *
          (⟨1, 1, fun _ _ => ⟨0, 0⟩⟩ : DomainReader).cols.toNat :=
  ⟨le_refl 1, le_refl 1, le_refl 1, fun g loc h => mandelFrac_bounds g loc h,
    FracIt_complete ⟨1, 1, fun _ _ => ⟨0, 0⟩⟩ ⟨2, 7⟩ MandelbrotFrac 1
      (le_refl 1) (le_refl 1) (le_refl 1) (fun g loc h => mandelFrac_bounds g loc h)⟩

/-- C5 (amended): FracIt validates and fails fast, before any
evaluation: maxIterations < 1 yields the configuration error with the
variant untouched; with maxIterations >= 1 and a degenerate domain shape
it yields the domain-shape error — but the variant's max-iteration count
has then ALREADY been configured (SetMaxIterations runs before the shape
check), so configuration is not deferred until all validation succeeds. -/
theorem FracIt_validation (d : DomainReader) (fd : FracData)
    (frac : FracData → Cq → Option (Result Cq)) (iterations : ℤ) :
    (iterations < 1 →
      FracIt d fd frac iterations =
        (fd, Except.error "gofrac: the maximum iteration count must be greater than zero")) ∧
    (1 ≤ iterations → (d.cols < 1 ∨ d.rows < 1) →
      FracIt d fd frac iterations =
        (⟨fd.Radius, iterations⟩,
          Except.error "gofrac: the domain must be sampled at least once along each axis")) := by
  constructor
  · intro h
    simp [FracIt, FracData.SetMaxIterations, h]
  · intro h1 h2
    have hok : fd.SetMaxIterations iterations = Except.ok ⟨fd.Radius, iterations⟩ := by
      simp [FracData.SetMaxIterations, show ¬ iterations < 1 by omega]
    simp [FracIt, hok, h2]

/-- Witness for C5: maxIterations 0 returns the configuration error with
the variant left at MaxIterations 7; a 0-row domain with maxIterations 3
returns the shape error with the variant reconfigured to 3. -/
theorem FracIt_validation_witness :
    FracIt ⟨1, 1, fun _ _ => ⟨0, 0⟩⟩ ⟨2, 7⟩ MandelbrotFrac 0 =
      (⟨2, 7⟩, Except.error "gofrac: the maximum iteration count must be greater than zero") ∧
    FracIt ⟨0, 5, fun _ _ => ⟨0, 0⟩⟩ ⟨2, 7⟩ MandelbrotFrac 3 =
      (⟨2, 3⟩, Except.error "gofrac: the domain must be sampled at least once along each axis") :=
  ⟨(FracIt_validation ⟨1, 1, fun _ _ => ⟨0, 0⟩⟩ ⟨2, 7⟩ MandelbrotFrac 0).1 (by decide),
    (FracIt_validation ⟨0, 5, fun _ _ => ⟨0, 0⟩⟩ ⟨2, 7⟩ MandelbrotFrac 3).2 (by decide)
      (by decide)⟩

/-- Counterexample for C5 as stated: the claim says the variant's
max-iteration count is configured only after validation succeeds; but on
a shape-invalid domain (0 rows) with requested count 3, FracIt returns
the shape error with the stored count already changed from 7 to 3. -/
theorem FracIt_config_order_cex :
    (FracIt ⟨0, 5, fun _ _ => ⟨0, 0⟩⟩ ⟨2, 7⟩ MandelbrotFrac 3).1.MaxIterations = 3 ∧
    (FracIt ⟨0, 5, fun _ _ => ⟨0, 0⟩⟩ ⟨2, 7⟩ MandelbrotFrac 3).2 =
      Except.error "gofrac: the domain must be sampled at least once along each axis" ∧
    (3 : ℤ) ≠ 7 := by
  refine ⟨rfl, rfl, by decide⟩
